import Mathlib

/-!
Formal model of the dailygrid-backend aggregation pipeline
(`scripts/update_data.py` together with the configuration constants of
`dailygrid_backend/config.py`).

Tables are modelled as lists of rows; pandas boolean-mask filtering becomes
`List.filter`, `groupby(...).agg({"value": "sum"})` becomes grouping by an
explicit key record, and `sort_values` becomes `List.mergeSort` with the
corresponding lexicographic comparison.  Integer `value`s are `Int`
(`raw_data_df["value"].astype(int)`); the floating-point `round` of Python 3
(round-half-to-even, both for `round(x, 2)` and `round(x, 0)`) is modelled
exactly over `ℚ`.  Fallible operations (`values[0]` on an empty selection,
i.e. `IndexError`, and the `raise ValueError` for a missing region) are
modelled with `Option` / `Except`.
-/

namespace DailyGrid

/-- One record of the fetched table, after the column renaming and the
`astype(int)` cast performed in `main` (`update_data.py`). -/
structure Row where
  period : String
  respondent : String
  respondent_name : String
  type_name : String
  fueltype : String
  timezone : String
  timezone_description : String
  value : Int
  value_units : String
deriving DecidableEq, Repr

instance : Inhabited Row :=
  ⟨⟨"", "", "", "", "", "", "", 0, ""⟩⟩

/-- The grouping key used by `add_renewables` / `add_fossil_fuels` /
`add_total`: the column list passed to `groupby`. -/
structure GroupKey where
  period : String
  respondent : String
  respondent_name : String
  timezone : String
  timezone_description : String
  value_units : String
deriving DecidableEq, Repr

def Row.key (r : Row) : GroupKey :=
  ⟨r.period, r.respondent, r.respondent_name, r.timezone,
   r.timezone_description, r.value_units⟩

/-- String comparison as performed by Python / pandas on object columns:
lexicographic on the code-point sequence.  Strings are compared through
their character lists. -/
def strLe (a b : String) : Prop :=
  a.data ≤ b.data

instance : DecidableRel strLe := fun a b =>
  inferInstanceAs (Decidable (a.data ≤ b.data))

/-- Strict version of `strLe`. -/
def strLt (a b : String) : Prop :=
  strLe a b ∧ a ≠ b

/-- The `groupby` key as a lexicographically ordered tuple (pandas emits the
groups sorted by the key tuple). -/
def keyLex (k : GroupKey) :
    List Char ×ₗ List Char ×ₗ List Char ×ₗ List Char ×ₗ List Char ×ₗ List Char :=
  toLex (k.period.data, toLex (k.respondent.data, toLex (k.respondent_name.data,
    toLex (k.timezone.data, toLex (k.timezone_description.data, k.value_units.data)))))

/-- Lexicographic comparison on the `groupby` key columns. -/
def keyLe (a b : GroupKey) : Prop :=
  keyLex a ≤ keyLex b

instance : DecidableRel keyLe := fun a b =>
  inferInstanceAs (Decidable (keyLex a ≤ keyLex b))

/-- First-occurrence deduplication, as performed by `pandas.Series.unique`. -/
def uniqueInOrder {α : Type} [DecidableEq α] : List α → List α
  | [] => []
  | a :: l => a :: (uniqueInOrder l).filter (fun x => x ≠ a)

/-- Sum of the `value` column. -/
def sumValues (rows : List Row) : Int :=
  (rows.map Row.value).sum

/-- One aggregated output row of `groupby(...).agg({"value": "sum"})`
followed by the `fueltype` / `type_name` assignments: the six key columns
come back from the group key, `value` is the group's sum. -/
def groupRow (filtered : List Row) (catName : String) (k : GroupKey) : Row :=
  { period := k.period
    respondent := k.respondent
    respondent_name := k.respondent_name
    timezone := k.timezone
    timezone_description := k.timezone_description
    value_units := k.value_units
    type_name := catName
    fueltype := catName
    value := sumValues (filtered.filter (fun r => r.key = k)) }

/-- The common body of `add_renewables`, `add_fossil_fuels` and `add_total`:
filter the table to the rows whose `type_name` lies in `filterSet`, group by
the six key columns summing `value`, then overwrite `fueltype` and
`type_name` with the category name. -/
def aggregateCategory (filterSet : List String) (catName : String)
    (df : List Row) : List Row :=
  (List.insertionSort keyLe
      (uniqueInOrder ((df.filter (fun r => filterSet.contains r.type_name)).map Row.key))).map
    (groupRow (df.filter (fun r => filterSet.contains r.type_name)) catName)

/-- Modelled from the spec: `dailygrid_backend/types.py` is not part of the
sources; the spec only pins that Solar and Wind are renewable, Coal is a
fossil fuel, and `VALID_GENERATION_TYPES` covers the valid generation types
while excluding other/unknown categories. -/
def RENEWABLE_TYPES : List String := ["Solar", "Wind"]

/-- Modelled from the spec: fossil-fuel type names (`types.py` missing). -/
def FOSSIL_FUEL_TYPES : List String := ["Coal"]

/-- Modelled from the spec: the type names summed into "Total"
(`types.py` missing). -/
def VALID_GENERATION_TYPES : List String := ["Solar", "Wind", "Coal"]

def add_renewables (df : List Row) : List Row :=
  aggregateCategory RENEWABLE_TYPES "Renewables" df

def add_fossil_fuels (df : List Row) : List Row :=
  aggregateCategory FOSSIL_FUEL_TYPES "Fossil Fuels" df

def add_total (df : List Row) : List Row :=
  aggregateCategory VALID_GENERATION_TYPES "Total" df

/-- Constants of `dailygrid_backend/config.py`. -/
def SUPPORTED_REGIONS : List String := ["US48", "CISO"]

def DEFAULT_TIMEZONE : String := "Central"

def PROCESSED_OUTPUT_FILE : String := "public/data/daily_energy_mix_latest.json"

def RAW_OUTPUT_FILE : String := "public/data/raw.json"

/-- Model of `get_latest_period`: `df["period"].max()`, the fold of the binary string
maximum over the `period` column.  On an empty table pandas yields NaN;
this is modelled as `none`. -/
def get_latest_period (df : List Row) : Option String :=
  match df.map Row.period with
  | [] => none
  | p :: ps => some (ps.foldl (fun a b => if strLe a b then b else a) p)

/-- The boolean-mask restriction performed at the top of
`get_latest_type_values`: rows of the latest period carrying the requested
timezone. -/
def latestSlice (df : List Row) (timezone : String) : List Row :=
  match get_latest_period df with
  | none => []
  | some p => df.filter (fun r => r.period == p && r.timezone == timezone)

/-- One iteration of the subtype loop in `get_latest_type_values`: the
`value` of the first row whose `type_name` equals `subtype`
(`subtype_df["value"].values[0]`), or `0` when the selection is empty. -/
def subtypeContribution (slice : List Row) (subtype : String) : Int :=
  match slice.filter (fun r => r.type_name == subtype) with
  | [] => 0
  | r :: _ => r.value

/-- The accumulated `type_value` of `get_latest_type_values`. -/
def typeValue (VTG : String → List String) (slice : List Row)
    (type_name : String) : Int :=
  ((VTG type_name).map (subtypeContribution slice)).sum

/-- Model of `latest_period_df[latest_period_df["type_name"] == "Total"]["value"].values[0]`:
`none` models the `IndexError` raised when no "Total" row exists in the
slice. -/
def totalValue (slice : List Row) : Option Int :=
  match slice.filter (fun r => r.type_name == "Total") with
  | [] => none
  | r :: _ => some r.value

/-- Python 3's `round` to an integer: round half to even (banker's
rounding), modelled exactly over `ℚ`. -/
def roundHalfEven (q : ℚ) : ℤ :=
  if q - ⌊q⌋ < 1 / 2 then ⌊q⌋
  else if q - ⌊q⌋ > 1 / 2 then ⌊q⌋ + 1
  else if ⌊q⌋ % 2 = 0 then ⌊q⌋ else ⌊q⌋ + 1

/-- Python 3's `round(x, 2)`: two-decimal round half to even. -/
def round2HalfEven (q : ℚ) : ℚ :=
  (roundHalfEven (q * 100) : ℚ) / 100

/-- Two-decimal round half up (`⌊x + 1/2⌋` at the second decimal), used
only to compare against the rounding convention the code employs. -/
def round2HalfUp (q : ℚ) : ℚ :=
  (⌊q * 100 + 1 / 2⌋ : ℚ) / 100

/-- Model of `get_latest_type_values(df, type_name, timezone)` of `update_data.py`.
`VTG` stands for the imported `VALID_TYPE_GROUPS` mapping
(`dailygrid_backend/types.py`, not part of the sources), passed as a
parameter.  `none` models the `IndexError` path; on success the pair is
`(int(type_value), percent)`. -/
def get_latest_type_values (VTG : String → List String) (df : List Row)
    (type_name : String) (timezone : String) : Option (Int × ℚ) :=
  let slice := latestSlice df timezone
  let tv := typeValue VTG slice type_name
  match totalValue slice with
  | none => none
  | some total =>
    some (tv, if total > 0 then round2HalfEven ((tv : ℚ) / (total : ℚ) * 100) else 0)

/-- Model of `int(round(v / 1000, 0))`: megawatt-hours to display gigawatt-hours, as
computed in `main` for both the snapshot entries and the history entries. -/
def gigawatthours (v : Int) : Int :=
  roundHalfEven ((v : ℚ) / 1000)

/-- The (period, fueltype, type_name) sort key of
`processed_data_df.sort_values(by=["period", "fueltype", "type_name"])`. -/
def rowLex (r : Row) : List Char ×ₗ List Char ×ₗ List Char :=
  toLex (r.period.data, toLex (r.fueltype.data, r.type_name.data))

/-- Lexicographic comparison on (period, fueltype, type_name).  `sort_values`
does not specify the relative order of rows with equal keys (its default
sort is not stable), so any sort by this comparison is a faithful model. -/
def rowLe (a b : Row) : Prop :=
  rowLex a ≤ rowLex b

instance : DecidableRel rowLe := fun a b =>
  inferInstanceAs (Decidable (rowLex a ≤ rowLex b))

instance : IsTrans Row rowLe :=
  ⟨fun _ _ _ h h' => le_trans h h'⟩

instance : IsTotal Row rowLe :=
  ⟨fun a b => le_total (rowLex a) (rowLex b)⟩

/-- The combined per-region table built in `main`: original rows plus the
three synthetic tables, sorted by (period, fueltype, type_name). -/
def combineRegion (region_df : List Row) : List Row :=
  List.insertionSort rowLe (region_df ++ add_renewables region_df ++
    add_fossil_fuels region_df ++ add_total region_df)

/-- One element of the `history.total` list assembled in `main`. -/
structure HistEntry where
  date : String
  megawatthours : Int
  gigawatthours : Int
deriving DecidableEq, Repr

/-- The per-date "Total" selection of the history loop in `main`. -/
def totalRows (df : List Row) (date : String) : List Row :=
  df.filter (fun r => r.period == date && r.type_name == "Total")

/-- The history loop of `main` over an explicit date list;
`date_total_df["value"].values[0]` takes the first matching row, and an
empty selection raises `IndexError` (`none`). -/
def historyGo (df : List Row) : List String → Option (List HistEntry)
  | [] => some []
  | d :: ds =>
    match totalRows df d with
    | [] => none
    | r :: _ =>
      (historyGo df ds).map
        (fun hs => ⟨d, r.value, gigawatthours r.value⟩ :: hs)

/-- The `history.total` list for one region: one entry per element of
`processed_data_df["period"].unique()`. -/
def historyEntries (df : List Row) : Option (List HistEntry) :=
  historyGo df (uniqueInOrder (df.map Row.period))

/-- One display-group entry of the frontend snapshot assembled in `main`. -/
structure GroupEntry where
  megawatthours : Int
  gigawatthoursDisplay : Int
  percent : ℚ
  source : String
deriving DecidableEq, Repr

/-- The `for type_name in DISPLAY_TYPE_GROUPS` loop of `main`, keyed by
`type_to_col_name` (`toCol`); `none` models an `IndexError` escaping from
`get_latest_type_values`. -/
def snapshotGroups (VTG : String → List String) (toCol : String → String)
    (df : List Row) : List String → Option (List (String × GroupEntry))
  | [] => some []
  | g :: gs =>
    match get_latest_type_values VTG df g DEFAULT_TIMEZONE with
    | none => none
    | some (v, p) =>
      (snapshotGroups VTG toCol df gs).map
        (fun rest => (toCol g, ⟨v, gigawatthours v, p, g⟩) :: rest)

/-- The per-region summary written under `frontend_data[region]`. -/
structure RegionSummary where
  date : Option String
  updated : String
  groups : List (String × GroupEntry)
  history : List HistEntry
deriving DecidableEq, Repr

/-- The body of the per-region loop of `main` after the availability check:
build the combined table, the latest snapshot and the history.  `DTG` and
`toCol` stand for the imported `DISPLAY_TYPE_GROUPS` and `type_to_col_name`
(`dailygrid_backend/types.py`, not part of the sources); `nowStr` for
`get_now_central_string()`. -/
def processRegion (VTG : String → List String) (DTG : List String)
    (toCol : String → String) (nowStr : String) (region_df : List Row) :
    Option (List Row × RegionSummary) :=
  let combined := combineRegion region_df
  match snapshotGroups VTG toCol combined DTG with
  | none => none
  | some groups =>
    match historyEntries combined with
    | none => none
    | some hist =>
      some (combined, ⟨get_latest_period combined, nowStr, groups, hist⟩)

/-- The exceptions `main` can raise while processing:
`ValueError(f"Region {region} not found in data, check the API call")` for
a missing region, and the `IndexError` escaping from the snapshot or
history computations. -/
inductive PError where
  | missingRegion (region : String)
  | indexError
deriving DecidableEq, Repr

/-- The region loop of `main`: validate that the region occurs among the
respondents, then process it; the first exception aborts the whole run. -/
def runRegions (VTG : String → List String) (DTG : List String)
    (toCol : String → String) (nowStr : String) (raw : List Row) :
    List String → Except PError (List Row × List (String × RegionSummary))
  | [] => .ok ([], [])
  | region :: rest =>
    if (raw.map Row.respondent).contains region then
      match processRegion VTG DTG toCol nowStr
          (raw.filter (fun r => r.respondent == region)) with
      | none => .error .indexError
      | some (tbl, summ) =>
        match runRegions VTG DTG toCol nowStr raw rest with
        | .error e => .error e
        | .ok (tbls, summs) => .ok (tbl ++ tbls, (region, summ) :: summs)
    else
      .error (.missingRegion region)

/-- Model of `main` from the prepared raw table onwards: process every supported
region, then write the two artifacts.  The fetch, logging and JSON
serialisation are external collaborators. -/
def runMain (VTG : String → List String) (DTG : List String)
    (toCol : String → String) (nowStr : String) (raw : List Row)
    (regions : List String) :
    Except PError (List Row × List (String × RegionSummary)) :=
  runRegions VTG DTG toCol nowStr raw regions

/-- The files `main` writes: both `write_json` calls sit after the whole
region loop, so an exception anywhere in it leaves both files unwritten. -/
def writtenFiles {α : Type} (result : Except PError α) : List String :=
  match result with
  | .ok _ => [RAW_OUTPUT_FILE, PROCESSED_OUTPUT_FILE]
  | .error _ => []

/-- Discriminator for `Except.error (PError.missingRegion _)`: whether a run
failed with the missing-region `ValueError` (the spec's
DataAvailabilityError) as opposed to some other exception. -/
def isMissingRegionError {α : Type} : Except PError α → Bool
  | .error (.missingRegion _) => true
  | _ => false

/-! Concrete tables used to instantiate the theorems below.  They follow
the spec's end-to-end scenario (region US48, period 2024-06-01, timezone
Central, megawatt-hour integer values). -/

/-- A sample raw row for region US48. -/
def exRow (p tp tz : String) (v : Int) : Row :=
  ⟨p, "US48", "United States Lower 48", tp, tp, tz, tz ++ " Time", v, "megawatthours"⟩

/-- The spec's end-to-end scenario: Solar 100, Coal 300, Wind 50. -/
def specScenarioDf : List Row :=
  [exRow "2024-06-01" "Solar" "Central" 100,
   exRow "2024-06-01" "Coal" "Central" 300,
   exRow "2024-06-01" "Wind" "Central" 50]

/-- The grouping key shared by all rows of `specScenarioDf`. -/
def specScenarioKey : GroupKey :=
  ⟨"2024-06-01", "US48", "United States Lower 48", "Central",
   "Central Time", "megawatthours"⟩

/-- Two rows sharing the `type_name` "Solar" in the latest slice, plus a
Total row. -/
def dupSubtypeDf : List Row :=
  [exRow "2024-06-01" "Solar" "Central" 1,
   exRow "2024-06-01" "Solar" "Central" 2,
   exRow "2024-06-01" "Total" "Central" 100]

/-- Two "Total" rows for the same period (one per timezone). -/
def dupTotalDf : List Row :=
  [exRow "2024-06-01" "Total" "Central" 100,
   exRow "2024-06-01" "Total" "Eastern" 200]

/-- A table with a single "Total" row. -/
def singleTotalDf : List Row :=
  [exRow "2024-06-01" "Total" "Central" 100]

/-- A latest slice with no "Total" row. -/
def noTotalDf : List Row :=
  [exRow "2024-06-01" "Solar" "Central" 5]

/-- US48 rows carrying only the Eastern timezone: the Central snapshot
slice is empty, so the snapshot computation raises before the CISO
availability check is reached. -/
def easternOnlyDf : List Row :=
  [exRow "2024-06-01" "Solar" "Eastern" 100]

/-- Solar 1 of Total 800: the exact percentage is 0.125, a tie at the
second decimal. -/
def boundaryPercentDf : List Row :=
  [exRow "2024-06-01" "Solar" "Central" 1,
   exRow "2024-06-01" "Total" "Central" 800]

/-- Solar 9 of Total 800: the exact percentage is 1.125, a tie at the
second decimal. -/
def boundaryPercent9Df : List Row :=
  [exRow "2024-06-01" "Solar" "Central" 9,
   exRow "2024-06-01" "Total" "Central" 800]

/-- A group value exceeding the Total value. -/
def overTotalDf : List Row :=
  [exRow "2024-06-01" "Solar" "Central" 200,
   exRow "2024-06-01" "Total" "Central" 100]

/-- Solar 1 of Total 4: percentage 25. -/
def percent25Df : List Row :=
  [exRow "2024-06-01" "Solar" "Central" 1,
   exRow "2024-06-01" "Total" "Central" 4]

/-- A slice whose "Total" row has value 0. -/
def zeroTotalDf : List Row :=
  [exRow "2024-06-01" "Total" "Central" 0]

/-- The spec's latest-period example: periods 2024-01-01, 2024-01-03,
2024-01-02. -/
def threePeriodsDf : List Row :=
  [exRow "2024-01-01" "Solar" "Central" 1,
   exRow "2024-01-03" "Solar" "Central" 1,
   exRow "2024-01-02" "Solar" "Central" 1]

/-- A sample `VALID_TYPE_GROUPS` mapping with a single-element group. -/
def solarVTG : String → List String := fun _ => ["Solar"]

/-! Basic facts about the helper operations. -/

theorem mem_uniqueInOrder {α : Type} [DecidableEq α] (l : List α) (a : α) :
    a ∈ uniqueInOrder l ↔ a ∈ l := by
  induction l with
  | nil => simp [uniqueInOrder]
  | cons b t ih =>
    simp only [uniqueInOrder, List.mem_cons, List.mem_filter]
    constructor
    · rintro (rfl | ⟨h, _⟩)
      · exact Or.inl rfl
      · exact Or.inr (ih.mp h)
    · rintro (rfl | h)
      · exact Or.inl rfl
      · by_cases hab : a = b
        · exact Or.inl hab
        · exact Or.inr ⟨ih.mpr h, by simpa using hab⟩

theorem nodup_uniqueInOrder {α : Type} [DecidableEq α] (l : List α) :
    (uniqueInOrder l).Nodup := by
  induction l with
  | nil => exact List.nodup_nil
  | cons b t ih =>
    refine List.Nodup.cons ?_ (ih.filter _)
    intro hmem
    rcases List.mem_filter.mp hmem with ⟨_, hne⟩
    simp at hne

theorem length_filter_eq_of_nodup {α : Type} [DecidableEq α] (l : List α)
    (hl : l.Nodup) (a : α) :
    (l.filter (fun x => x = a)).length = if a ∈ l then 1 else 0 := by
  induction l with
  | nil => simp
  | cons b t ih =>
    rcases List.nodup_cons.mp hl with ⟨hb, ht⟩
    by_cases hba : b = a
    · subst hba
      have : t.filter (fun x => x = b) = [] :=
        List.filter_eq_nil_iff.mpr (fun x hx => by
          simp only [decide_eq_true_eq]
          exact fun h => hb (h ▸ hx))
      simp [List.filter_cons, this]
    · have := ih ht
      simp only [List.filter_cons, List.mem_cons]
      rw [if_neg (by simpa using hba)]
      rw [this]
      by_cases hat : a ∈ t
      · rw [if_pos hat, if_pos (Or.inr hat)]
      · rw [if_neg hat, if_neg (by rintro (h | h) <;> [exact hba h.symm; exact hat h])]

theorem groupRow_key (filtered : List Row) (c : String) (k : GroupKey) :
    (groupRow filtered c k).key = k :=
  rfl

/-- The keys emitted by `aggregateCategory` are exactly the distinct keys of
the filtered rows, each once. -/
theorem aggregateCategory_eq_map (fs : List String) (c : String) (df : List Row) :
    aggregateCategory fs c df =
      (List.insertionSort keyLe
          (uniqueInOrder ((df.filter (fun r => fs.contains r.type_name)).map Row.key))).map
        (groupRow (df.filter (fun r => fs.contains r.type_name)) c) :=
  rfl

/-- C1.  For every input table, filter set and category name, the Category
Aggregator emits exactly one output row per distinct grouping key
(period, respondent, respondent_name, timezone, timezone_description,
value_units) occurring among the rows whose `type_name` is in the filter
set; its `value` is the exact integer sum of those rows' values and its
`type_name` and `fueltype` both carry the category name; a key with no
matching rows produces no output row.  Instantiating (fs, c) at
(RENEWABLE_TYPES, "Renewables"), (FOSSIL_FUEL_TYPES, "Fossil Fuels") and
(VALID_GENERATION_TYPES, "Total") yields the three synthetic categories. -/
theorem category_aggregator_one_row_per_key (df : List Row) (fs : List String)
    (c : String) (k : GroupKey) :
    (((aggregateCategory fs c df).filter (fun r => r.key = k)).length =
      if (df.filter (fun r => fs.contains r.type_name)).filter (fun r => r.key = k) = []
        then 0 else 1)
    ∧ ∀ r ∈ aggregateCategory fs c df, r.key = k →
        r.value =
            sumValues ((df.filter (fun r => fs.contains r.type_name)).filter
              (fun r => r.key = k))
          ∧ r.type_name = c ∧ r.fueltype = c := by
  classical
  set F := df.filter (fun r => fs.contains r.type_name) with hF
  set keys := List.insertionSort keyLe (uniqueInOrder (F.map Row.key)) with hkeys
  have hperm : List.Perm keys (uniqueInOrder (F.map Row.key)) :=
    List.perm_insertionSort _ _
  have hnd : keys.Nodup := hperm.nodup_iff.mpr (nodup_uniqueInOrder _)
  have hmem : ∀ x, x ∈ keys ↔ x ∈ F.map Row.key := fun x =>
    hperm.mem_iff.trans (mem_uniqueInOrder _ _)
  have hagg : aggregateCategory fs c df = keys.map (groupRow F c) := rfl
  have hfilter : (keys.map (groupRow F c)).filter (fun r => r.key = k) =
      (keys.filter (fun x => x = k)).map (groupRow F c) := by
    rw [List.filter_map]
    rfl
  constructor
  · rw [hagg, hfilter, List.length_map, length_filter_eq_of_nodup _ hnd]
    by_cases hc : F.filter (fun r => r.key = k) = []
    · rw [if_pos hc, if_neg]
      rw [hmem k, List.mem_map]
      rintro ⟨r, hrF, hrk⟩
      have := List.filter_eq_nil_iff.mp hc r hrF
      simp only [decide_eq_true_eq] at this
      exact this hrk
    · rw [if_neg hc, if_pos]
      rcases List.exists_mem_of_ne_nil _ hc with ⟨r, hr⟩
      rcases List.mem_filter.mp hr with ⟨hrF, hrk⟩
      simp only [decide_eq_true_eq] at hrk
      exact (hmem k).mpr (List.mem_map.mpr ⟨r, hrF, hrk⟩)
  · intro r hr hk
    rw [hagg] at hr
    rcases List.mem_map.mp hr with ⟨k', _, rfl⟩
    have : k' = k := by rw [← groupRow_key F c k', hk]
    subst this
    exact ⟨rfl, rfl, rfl⟩

/-- C1, instantiated on the spec's end-to-end scenario: the renewables
aggregation of `specScenarioDf` emits exactly one row for the shared key. -/
theorem category_aggregator_one_row_per_key_witness :
    ((aggregateCategory RENEWABLE_TYPES "Renewables" specScenarioDf).filter
      (fun r => r.key = specScenarioKey)).length = 1 := by
  have h := (category_aggregator_one_row_per_key specScenarioDf RENEWABLE_TYPES
    "Renewables" specScenarioKey).1
  rwa [if_neg (by decide)] at h

/-! The snapshot extractor: `get_latest_type_values`. -/

theorem sumValues_nil : sumValues [] = 0 :=
  rfl

theorem sumValues_cons (r : Row) (t : List Row) :
    sumValues (r :: t) = r.value + sumValues t := by
  simp [sumValues]

theorem subtypeContribution_eq_sum (slice : List Row) (s : String)
    (h : (slice.filter (fun r => r.type_name == s)).length ≤ 1) :
    subtypeContribution slice s = sumValues (slice.filter (fun r => r.type_name == s)) := by
  rcases hfilter : slice.filter (fun r => r.type_name == s) with _ | ⟨r, rest⟩
  · simp [subtypeContribution, hfilter, sumValues]
  · rw [hfilter] at h
    cases rest with
    | nil => simp [subtypeContribution, hfilter, sumValues]
    | cons a t => simp at h

theorem sumValues_filter_contains_cons (slice : List Row) (s : String)
    (l : List String) (hs : s ∉ l) :
    sumValues (slice.filter (fun r => (s :: l).contains r.type_name)) =
      sumValues (slice.filter (fun r => r.type_name == s)) +
        sumValues (slice.filter (fun r => l.contains r.type_name)) := by
  induction slice with
  | nil => simp [sumValues]
  | cons r t ih =>
    simp only [List.contains_cons] at ih
    by_cases h1 : r.type_name = s
    · have hb1 : (r.type_name == s) = true := by simp [h1]
      have hb2 : l.contains r.type_name = false := by
        simp only [List.elem_eq_mem, decide_eq_false_iff_not]
        exact fun hmem => hs (h1 ▸ hmem)
      simp only [List.filter_cons, List.contains_cons, hb1, hb2, Bool.true_or,
        if_true, Bool.false_eq_true, if_false, sumValues_cons]
      omega
    · have hb1 : (r.type_name == s) = false := by simp [h1]
      by_cases h2 : r.type_name ∈ l
      · have hb2 : l.contains r.type_name = true := by
          simp only [List.elem_eq_mem, decide_eq_true_eq]
          exact h2
        simp only [List.filter_cons, List.contains_cons, hb1, hb2, Bool.false_or,
          if_true, Bool.false_eq_true, if_false, sumValues_cons]
        omega
      · have hb2 : l.contains r.type_name = false := by
          simp only [List.elem_eq_mem, decide_eq_false_iff_not]
          exact h2
        simp only [List.filter_cons, List.contains_cons, hb1, hb2, Bool.false_or,
          Bool.false_eq_true, if_false]
        exact ih

theorem subtypeContributions_sum_eq (slice : List Row) (l : List String)
    (hnd : l.Nodup)
    (h1 : ∀ s, (slice.filter (fun r => r.type_name == s)).length ≤ 1) :
    (l.map (subtypeContribution slice)).sum =
      sumValues (slice.filter (fun r => l.contains r.type_name)) := by
  induction l with
  | nil => simp [sumValues]
  | cons s t ih =>
    rcases List.nodup_cons.mp hnd with ⟨hs, ht⟩
    rw [List.map_cons, List.sum_cons, sumValues_filter_contains_cons slice s t hs,
      subtypeContribution_eq_sum slice s (h1 s), ih ht]

theorem typeValue_eq_sumValues (VTG : String → List String) (slice : List Row)
    (g : String) (hnd : (VTG g).Nodup)
    (h1 : ∀ s, (slice.filter (fun r => r.type_name == s)).length ≤ 1) :
    typeValue VTG slice g =
      sumValues (slice.filter (fun r => (VTG g).contains r.type_name)) :=
  subtypeContributions_sum_eq slice (VTG g) hnd h1

theorem length_filter_type_le_one (slice : List Row)
    (hnd : (slice.map Row.type_name).Nodup) (s : String) :
    (slice.filter (fun r => r.type_name == s)).length ≤ 1 := by
  induction slice with
  | nil => simp
  | cons r t ih =>
    rw [List.map_cons, List.nodup_cons] at hnd
    rcases hnd with ⟨hr, ht⟩
    rw [List.filter_cons]
    by_cases h : r.type_name = s
    · have hb : (r.type_name == s) = true := by simp [h]
      rw [hb]
      simp only [if_true]
      have : t.filter (fun x => x.type_name == s) = [] := by
        apply List.filter_eq_nil_iff.mpr
        intro x hx
        simp only [beq_iff_eq]
        intro hxs
        exact hr (List.mem_map.mpr ⟨x, hx, by rw [hxs, h]⟩)
      simp [this]
    · have hb : (r.type_name == s) = false := by simp [h]
      rw [hb]
      simpa using ih ht

/-- C2 (amended).  For every combined table, group and timezone:
(a) whenever a "Total" row exists in the latest-period slice,
`get_latest_type_values` returns as snapshot value the accumulated
`type_value`, in which each subtype of `VALID_TYPE_GROUPS[group]`
contributes the `value` of the *first* slice row carrying that
`type_name` (0 when there is none, without error); and (b) when no
`type_name` repeats within the slice and the group's subtype list has no
duplicates, this value equals the sum of `value` over all slice rows whose
`type_name` lies in the group — the claim's sum formula holds only under
that uniqueness proviso. -/
theorem snapshot_value_first_match (VTG : String → List String) (df : List Row)
    (g tz : String) :
    (∀ t, totalValue (latestSlice df tz) = some t →
      ∃ p, get_latest_type_values VTG df g tz =
        some (typeValue VTG (latestSlice df tz) g, p))
    ∧ ((VTG g).Nodup →
        ((latestSlice df tz).map Row.type_name).Nodup →
        typeValue VTG (latestSlice df tz) g =
          sumValues ((latestSlice df tz).filter
            (fun r => (VTG g).contains r.type_name))) := by
  constructor
  · intro t ht
    simp only [get_latest_type_values, ht]
    exact ⟨_, rfl⟩
  · intro hnd hslice
    exact typeValue_eq_sumValues VTG (latestSlice df tz) g hnd
      (length_filter_type_le_one _ hslice)

/-- C2 witness: on the spec's end-to-end table the first-match accumulation
agrees with the sum over the group's rows. -/
theorem snapshot_value_first_match_witness :
    typeValue solarVTG (latestSlice specScenarioDf "Central") "renewables" =
      sumValues ((latestSlice specScenarioDf "Central").filter
        (fun r => (solarVTG "renewables").contains r.type_name)) :=
  (snapshot_value_first_match solarVTG specScenarioDf "renewables" "Central").2
    (by decide) (by decide)

/-- C2 counterexample: with two "Solar" rows (values 1 and 2) in the latest
slice, the snapshot value is the first row's 1, not the claimed sum 3. -/
theorem snapshot_first_match_counterexample :
    (get_latest_type_values solarVTG dupSubtypeDf "renewables" "Central").map
        Prod.fst = some 1
      ∧ sumValues ((latestSlice dupSubtypeDf "Central").filter
          (fun r => (solarVTG "renewables").contains r.type_name)) = 3
      ∧ (1 : ℤ) ≠ 3 := by
  refine ⟨by decide, by decide, by decide⟩

/-- C3.  If the latest-period, configured-timezone slice contains no row
with `type_name = "Total"`, `get_latest_type_values` fails with the
caller-visible `IndexError` (the spec's MissingTotalError), modelled as
`none` — it does not return a zero or default total. -/
theorem missing_total_error (VTG : String → List String) (df : List Row)
    (g tz : String)
    (h : (latestSlice df tz).filter (fun r => r.type_name == "Total") = []) :
    get_latest_type_values VTG df g tz = none := by
  simp only [get_latest_type_values, totalValue, h]

/-- C3 witness: a slice without a Total row makes the snapshot fail. -/
theorem missing_total_error_witness :
    get_latest_type_values solarVTG noTotalDf "renewables" "Central" = none :=
  missing_total_error solarVTG noTotalDf "renewables" "Central" (by decide)

/-! The history builder. -/

theorem historyGo_isSome_iff (df : List Row) (ds : List String) :
    (∃ hs, historyGo df ds = some hs) ↔ ∀ d ∈ ds, totalRows df d ≠ [] := by
  induction ds with
  | nil => simp [historyGo]
  | cons d ds ih =>
    rcases htr : totalRows df d with _ | ⟨r, rest⟩ <;>
      simp only [historyGo, htr]
    · constructor
      · rintro ⟨hs, h⟩
        cases h
      · intro h
        exact absurd htr (h d (List.mem_cons_self d ds))
    · constructor
      · rintro ⟨hs, hmap⟩
        rcases Option.map_eq_some'.mp hmap with ⟨hs', hgo, _⟩
        intro d' hd'
        rcases List.mem_cons.mp hd' with rfl | hd''
        · rw [htr]
          simp
        · exact (ih.mp ⟨hs', hgo⟩) d' hd''
      · intro h
        rcases ih.mpr (fun d' hd' => h d' (List.mem_cons_of_mem _ hd')) with ⟨hs', hgo⟩
        exact ⟨_, by rw [hgo]; rfl⟩

theorem historyGo_eq_some (df : List Row) (ds : List String) (hs : List HistEntry)
    (h : historyGo df ds = some hs) :
    hs.map HistEntry.date = ds
    ∧ ∀ e ∈ hs, totalRows df e.date ≠ []
        ∧ e.megawatthours = ((totalRows df e.date).headI).value
        ∧ e.gigawatthours = gigawatthours ((totalRows df e.date).headI).value := by
  induction ds generalizing hs with
  | nil =>
    simp only [historyGo, Option.some.injEq] at h
    subst h
    simp
  | cons d ds ih =>
    rcases htr : totalRows df d with _ | ⟨r, rest⟩ <;>
      simp only [historyGo, htr] at h
    · cases h
    · rcases Option.map_eq_some'.mp h with ⟨hs', hgo, rfl⟩
      obtain ⟨hdates, hvals⟩ := ih hs' hgo
      refine ⟨by simp [hdates], ?_⟩
      intro e he
      rcases List.mem_cons.mp he with rfl | he'
      · refine ⟨by rw [htr]; simp, ?_, ?_⟩
        · show r.value = ((totalRows df d).headI).value
          rw [htr]
          rfl
        · show gigawatthours r.value = gigawatthours (((totalRows df d).headI).value)
          rw [htr]
          rfl
      · exact hvals e he'

/-- C4 (amended).  The History Builder fails with the `IndexError` (the
spec's MissingTotalError) exactly when some distinct period of the table
has *zero* "Total" rows; with one or more such rows it emits an entry for
the date built from the first matching row — it does not fail when more
than one Total row exists. -/
theorem history_fails_iff_no_total (df : List Row) :
    ((∃ hs, historyEntries df = some hs) ↔
      ∀ d ∈ uniqueInOrder (df.map Row.period), totalRows df d ≠ [])
    ∧ ∀ hs, historyEntries df = some hs →
        hs.map HistEntry.date = uniqueInOrder (df.map Row.period)
        ∧ ∀ e ∈ hs, totalRows df e.date ≠ []
            ∧ e.megawatthours = ((totalRows df e.date).headI).value
            ∧ e.gigawatthours = gigawatthours ((totalRows df e.date).headI).value :=
  ⟨historyGo_isSome_iff df _, fun hs h => historyGo_eq_some df _ hs h⟩

/-- C4 witness: a table with exactly one Total row yields a history. -/
theorem history_fails_iff_no_total_witness :
    ∃ hs, historyEntries singleTotalDf = some hs :=
  (history_fails_iff_no_total singleTotalDf).1.mpr (by decide)

/-- C4 counterexample: a period with two "Total" rows (one per timezone)
does not make the History Builder fail; it emits one entry taking the
first row's value 100. -/
theorem history_duplicate_total_counterexample :
    (totalRows dupTotalDf "2024-06-01").length = 2
    ∧ (historyEntries dupTotalDf).map (List.map HistEntry.date) = some ["2024-06-01"]
    ∧ (historyEntries dupTotalDf).map (List.map HistEntry.megawatthours) = some [100] :=
  ⟨by decide, by decide, by decide⟩

/-! The region loop of `main`. -/

theorem runRegions_missing_region (VTG : String → List String)
    (DTG : List String) (toCol : String → String) (nowStr : String)
    (raw : List Row) :
    ∀ (regions : List String) (r : String), r ∈ regions →
      (raw.map Row.respondent).contains r = false →
      (∃ e, runRegions VTG DTG toCol nowStr raw regions = .error e)
      ∧ ((∀ r' ∈ regions, (raw.map Row.respondent).contains r' = true →
            (processRegion VTG DTG toCol nowStr
              (raw.filter (fun x => x.respondent == r'))).isSome = true) →
          ∃ r₀, r₀ ∈ regions ∧ (raw.map Row.respondent).contains r₀ = false ∧
            runRegions VTG DTG toCol nowStr raw regions =
              .error (PError.missingRegion r₀)) := by
  intro regions
  induction regions with
  | nil => intro r hr; cases hr
  | cons region rest ih =>
    intro r hr hmiss
    by_cases hc : (raw.map Row.respondent).contains region = true
    · have hrrest : r ∈ rest := by
        rcases List.mem_cons.mp hr with rfl | h
        · rw [hc] at hmiss; cases hmiss
        · exact h
      rcases hp : processRegion VTG DTG toCol nowStr
          (raw.filter (fun x => x.respondent == region)) with _ | ⟨tbl, summ⟩
      · refine ⟨⟨.indexError, ?_⟩, ?_⟩
        · simp only [runRegions, if_pos hc, hp]
        · intro hall
          have := hall region (List.mem_cons_self region rest) hc
          rw [hp] at this
          cases this
      · obtain ⟨⟨e, he⟩, hsec⟩ := ih r hrrest hmiss
        constructor
        · exact ⟨e, by simp only [runRegions, if_pos hc, hp, he]⟩
        · intro hall
          obtain ⟨r₀, hr₀, hmiss₀, herr₀⟩ :=
            hsec (fun r' h' => hall r' (List.mem_cons_of_mem _ h'))
          exact ⟨r₀, List.mem_cons_of_mem _ hr₀, hmiss₀,
            by simp only [runRegions, if_pos hc, hp, herr₀]⟩
    · have hcf : (raw.map Row.respondent).contains region = false :=
        Bool.not_eq_true _ ▸ by simpa using hc
      refine ⟨⟨.missingRegion region, ?_⟩, fun _ => ⟨region,
        List.mem_cons_self region rest, hcf, ?_⟩⟩ <;>
        simp only [runRegions, if_neg hc]

/-- C5 (amended).  For every fetched table missing some configured region,
the run fails and writes neither the raw nor the processed output file
(atomicity); the error is specifically the missing-region `ValueError`
(the spec's DataAvailabilityError) whenever every region present in the
table processes without error — an earlier region whose snapshot or history
computation raises surfaces that error instead, but still nothing is
written. -/
theorem pipeline_missing_region_atomic (VTG : String → List String)
    (DTG : List String) (toCol : String → String) (nowStr : String)
    (raw : List Row) (regions : List String) (r : String)
    (hmem : r ∈ regions)
    (hmiss : (raw.map Row.respondent).contains r = false) :
    ((∃ e, runMain VTG DTG toCol nowStr raw regions = .error e)
      ∧ writtenFiles (runMain VTG DTG toCol nowStr raw regions) = [])
    ∧ ((∀ r' ∈ regions, (raw.map Row.respondent).contains r' = true →
          (processRegion VTG DTG toCol nowStr
            (raw.filter (fun x => x.respondent == r'))).isSome = true) →
        ∃ r₀, r₀ ∈ regions ∧ (raw.map Row.respondent).contains r₀ = false ∧
          runMain VTG DTG toCol nowStr raw regions =
            .error (PError.missingRegion r₀)) := by
  obtain ⟨⟨e, he⟩, hsec⟩ :=
    runRegions_missing_region VTG DTG toCol nowStr raw regions r hmem hmiss
  have hrm : runMain VTG DTG toCol nowStr raw regions = .error e := he
  exact ⟨⟨⟨e, hrm⟩, by rw [hrm]; rfl⟩, hsec⟩

/-- C5 witness: with CISO missing (and US48 processable because no display
groups are requested), the run writes no file. -/
theorem pipeline_missing_region_atomic_witness :
    writtenFiles (runMain solarVTG [] id "now" easternOnlyDf ["US48", "CISO"]) = [] :=
  (pipeline_missing_region_atomic solarVTG [] id "now" easternOnlyDf
    ["US48", "CISO"] "CISO" (by decide) (by decide)).1.2

/-- C5 counterexample: CISO is missing from the table, yet the run fails
with the `IndexError` of US48's snapshot computation (whose Central slice
is empty), not with the missing-region error the claim names; no file is
written either way. -/
theorem pipeline_missing_region_error_counterexample :
    runMain solarVTG ["renewables"] id "now" easternOnlyDf ["US48", "CISO"] =
      .error PError.indexError
    ∧ isMissingRegionError (runMain solarVTG ["renewables"] id "now"
        easternOnlyDf ["US48", "CISO"]) = false
    ∧ ("CISO" : String) ∈ (["US48", "CISO"] : List String)
    ∧ (easternOnlyDf.map Row.respondent).contains "CISO" = false
    ∧ writtenFiles (runMain solarVTG ["renewables"] id "now" easternOnlyDf
        ["US48", "CISO"]) = [] :=
  ⟨rfl, by decide, by decide, by decide, by decide⟩

/-! The rounding model. -/

theorem roundHalfEven_cases (q : ℚ) :
    roundHalfEven q = ⌊q⌋ ∨ roundHalfEven q = ⌊q⌋ + 1 := by
  unfold roundHalfEven
  split_ifs <;> simp

theorem floor_le_roundHalfEven (q : ℚ) : ⌊q⌋ ≤ roundHalfEven q := by
  rcases roundHalfEven_cases q with h | h <;> omega

theorem roundHalfEven_le_ceil (q : ℚ) : roundHalfEven q ≤ ⌈q⌉ := by
  unfold roundHalfEven
  split_ifs with h1 h2 h3
  · exact Int.floor_le_ceil q
  · have hq : (⌊q⌋ : ℚ) < q := by linarith
    have : ⌊q⌋ < ⌈q⌉ := by exact_mod_cast lt_of_lt_of_le hq (Int.le_ceil q)
    omega
  · exact Int.floor_le_ceil q
  · have heq : q - ⌊q⌋ = 1 / 2 := le_antisymm (not_lt.mp h2) (not_lt.mp h1)
    have hq : (⌊q⌋ : ℚ) < q := by linarith
    have : ⌊q⌋ < ⌈q⌉ := by exact_mod_cast lt_of_lt_of_le hq (Int.le_ceil q)
    omega

theorem abs_roundHalfEven_sub_le (q : ℚ) :
    |(roundHalfEven q : ℚ) - q| ≤ 1 / 2 := by
  have hf0 : (⌊q⌋ : ℚ) ≤ q := Int.floor_le q
  have hf1 : q < ⌊q⌋ + 1 := Int.lt_floor_add_one q
  unfold roundHalfEven
  split_ifs with h1 h2 h3 <;>
    (rw [abs_le]; constructor <;> push_cast <;> linarith)

theorem roundHalfEven_tie_even (q : ℚ)
    (h : |(roundHalfEven q : ℚ) - q| = 1 / 2) : 2 ∣ roundHalfEven q := by
  have hf0 : (⌊q⌋ : ℚ) ≤ q := Int.floor_le q
  have hf1 : q < ⌊q⌋ + 1 := Int.lt_floor_add_one q
  unfold roundHalfEven at h ⊢
  split_ifs at h ⊢ with h1 h2 h3
  · exfalso
    rw [abs_sub_comm, abs_of_nonneg (by linarith)] at h
    linarith
  · exfalso
    rw [abs_of_nonneg (by push_cast; linarith)] at h
    push_cast at h
    linarith
  · exact Int.dvd_of_emod_eq_zero h3
  · omega

theorem abs_div_hundred (A x : ℚ) : |A / 100 - x| = |A - x * 100| / 100 := by
  rw [show A / 100 - x = (A - x * 100) / 100 by ring, abs_div]
  norm_num

/-- C6 (amended).  Whenever the latest slice has a "Total" row with value
`t`, `get_latest_type_values` returns a pair without raising: the percent is
0.0 when `t` is not positive (division by a zero total is not an exception
path), and for positive `t` it is `value / t * 100` rounded to a multiple
of 1/100 at distance at most 1/200, with an exact half-way tie resolved to
an even numerator — round-half-to-even, the convention of Python 3's
`round(x, 2)`, not half-up. -/
theorem percent_half_even_rounding (VTG : String → List String) (df : List Row)
    (g tz : String) (t : ℤ)
    (h : totalValue (latestSlice df tz) = some t) :
    ∃ v p, get_latest_type_values VTG df g tz = some (v, p)
      ∧ (¬0 < t → p = 0)
      ∧ (0 < t → ∃ k : ℤ, p = (k : ℚ) / 100
          ∧ |p - (v : ℚ) / (t : ℚ) * 100| ≤ 1 / 200
          ∧ (|p - (v : ℚ) / (t : ℚ) * 100| = 1 / 200 → 2 ∣ k)) := by
  set v := typeValue VTG (latestSlice df tz) g with hv
  set x := (v : ℚ) / (t : ℚ) * 100 with hx
  refine ⟨v, if 0 < t then round2HalfEven x else 0, ?_, ?_, ?_⟩
  · simp only [get_latest_type_values, h]
  · intro ht
    rw [if_neg ht]
  · intro ht
    rw [if_pos ht]
    refine ⟨roundHalfEven (x * 100), rfl, ?_, ?_⟩
    · rw [round2HalfEven, abs_div_hundred]
      have := abs_roundHalfEven_sub_le (x * 100)
      linarith
    · intro htie
      apply roundHalfEven_tie_even
      rw [round2HalfEven, abs_div_hundred] at htie
      linarith

/-- C6 witness: Solar 1 of Total 4 — the snapshot percent exists, is a
multiple of 1/100 within 1/200 of the exact ratio. -/
theorem percent_half_even_rounding_witness :
    ∃ v p, get_latest_type_values solarVTG percent25Df "renewables" "Central" =
        some (v, p)
      ∧ (¬0 < (4 : ℤ) → p = 0)
      ∧ (0 < (4 : ℤ) → ∃ k : ℤ, p = (k : ℚ) / 100
          ∧ |p - (v : ℚ) / ((4 : ℤ) : ℚ) * 100| ≤ 1 / 200
          ∧ (|p - (v : ℚ) / ((4 : ℤ) : ℚ) * 100| = 1 / 200 → 2 ∣ k)) :=
  percent_half_even_rounding solarVTG percent25Df "renewables" "Central" 4
    (by decide)

/-- C6 counterexample: Solar 1 of Total 800 — the exact percentage is
0.125; the code computes 0.12 (half-even), while the claimed half-up
rounding yields 0.13. -/
theorem percent_half_up_counterexample :
    get_latest_type_values solarVTG boundaryPercentDf "renewables" "Central" =
      some (1, 3 / 25)
    ∧ round2HalfUp ((1 : ℚ) / 800 * 100) = 13 / 100
    ∧ (3 / 25 : ℚ) ≠ 13 / 100 := by
  refine ⟨?_, by norm_num [round2HalfUp], by norm_num⟩
  have ht : totalValue (latestSlice boundaryPercentDf "Central") = some 800 := by
    decide
  have hv : typeValue solarVTG (latestSlice boundaryPercentDf "Central")
      "renewables" = 1 := by decide
  simp only [get_latest_type_values, ht, hv]
  norm_num [round2HalfEven, roundHalfEven]

/-- C7 (amended).  The snapshot percent lies in [0, 100] whenever the Total
denominator is positive *and* the group's accumulated value lies between 0
and that denominator (the code does not otherwise constrain it), and the
percent is 0.0 whenever the denominator is not positive. -/
theorem percent_bounds (VTG : String → List String) (df : List Row)
    (g tz : String) (v : ℤ) (p : ℚ) (t : ℤ)
    (h : get_latest_type_values VTG df g tz = some (v, p))
    (ht : totalValue (latestSlice df tz) = some t) :
    (0 < t → 0 ≤ v → v ≤ t → 0 ≤ p ∧ p ≤ 100) ∧ (t ≤ 0 → p = 0) := by
  simp only [get_latest_type_values, ht, Option.some.injEq, Prod.mk.injEq] at h
  obtain ⟨hv, hp⟩ := h
  constructor
  · intro htpos h0 hvt
    rw [← hp, if_pos htpos]
    set x := ((typeValue VTG (latestSlice df tz) g : ℚ) / (t : ℚ)) * 100 with hxdef
    have htQ : (0 : ℚ) < (t : ℚ) := by exact_mod_cast htpos
    have hvQ : (0 : ℚ) ≤ ((typeValue VTG (latestSlice df tz) g : ℚ)) := by
      rw [hv]; exact_mod_cast h0
    have hratio : ((typeValue VTG (latestSlice df tz) g : ℚ) / (t : ℚ)) ≤ 1 := by
      rw [div_le_one htQ, hv]
      exact_mod_cast hvt
    have hx0 : 0 ≤ x := by
      rw [hxdef]
      have := div_nonneg hvQ (le_of_lt htQ)
      linarith
    have hx100 : x ≤ 100 := by
      rw [hxdef]
      nlinarith
    rw [round2HalfEven]
    constructor
    · have h1 : (0 : ℤ) ≤ ⌊x * 100⌋ := Int.le_floor.mpr (by push_cast; linarith)
      have h2 := floor_le_roundHalfEven (x * 100)
      have : (0 : ℚ) ≤ (roundHalfEven (x * 100) : ℚ) := by exact_mod_cast le_trans h1 h2
      linarith
    · have h3 := roundHalfEven_le_ceil (x * 100)
      have h4 : ⌈x * 100⌉ ≤ 10000 := Int.ceil_le.mpr (by push_cast; linarith)
      have : (roundHalfEven (x * 100) : ℚ) ≤ 10000 := by
        exact_mod_cast le_trans h3 h4
      linarith
  · intro htle
    rw [← hp, if_neg (not_lt.mpr htle)]

/-- C7 witness: Solar 1 of Total 4 gives percent 25, within bounds. -/
theorem percent_bounds_witness : 0 ≤ (25 : ℚ) ∧ (25 : ℚ) ≤ 100 := by
  have hres : get_latest_type_values solarVTG percent25Df "renewables"
      "Central" = some (1, 25) := by
    have ht : totalValue (latestSlice percent25Df "Central") = some 4 := by decide
    have hv : typeValue solarVTG (latestSlice percent25Df "Central")
        "renewables" = 1 := by decide
    simp only [get_latest_type_values, ht, hv]
    norm_num [round2HalfEven, roundHalfEven]
  exact (percent_bounds solarVTG percent25Df "renewables" "Central" 1 25 4 hres
    (by decide)).1 (by decide) (by decide) (by decide)

/-- C7 counterexample: a group value of 200 against a Total of 100 yields
percent 200, outside the claimed [0, 100] bound, although the Total
denominator is positive. -/
theorem percent_bound_counterexample :
    get_latest_type_values solarVTG overTotalDf "renewables" "Central" =
      some (200, 200)
    ∧ ¬((200 : ℚ) ≤ 100) := by
  refine ⟨?_, by norm_num⟩
  have ht : totalValue (latestSlice overTotalDf "Central") = some 100 := by decide
  have hv : typeValue solarVTG (latestSlice overTotalDf "Central")
      "renewables" = 200 := by decide
  simp only [get_latest_type_values, ht, hv]
  norm_num [round2HalfEven, roundHalfEven]

/-! The latest-period selection. -/

theorem strLe_refl (a : String) : strLe a a :=
  le_refl a.data

theorem strLe_trans {a b c : String} (h1 : strLe a b) (h2 : strLe b c) :
    strLe a c :=
  le_trans h1 h2

theorem strLe_total (a b : String) : strLe a b ∨ strLe b a :=
  le_total a.data b.data

theorem foldl_strMax_spec (ps : List String) (p : String) :
    (ps.foldl (fun a b => if strLe a b then b else a) p) ∈ p :: ps
    ∧ strLe p (ps.foldl (fun a b => if strLe a b then b else a) p)
    ∧ ∀ x ∈ ps, strLe x (ps.foldl (fun a b => if strLe a b then b else a) p) := by
  induction ps generalizing p with
  | nil => exact ⟨List.mem_cons_self p [], strLe_refl p, by simp⟩
  | cons q qs ih =>
    obtain ⟨hmem, hle, hall⟩ := ih (if strLe p q then q else p)
    have hpf : strLe p (if strLe p q then q else p) := by
      by_cases hpq : strLe p q
      · rw [if_pos hpq]; exact hpq
      · rw [if_neg hpq]; exact strLe_refl p
    have hqf : strLe q (if strLe p q then q else p) := by
      by_cases hpq : strLe p q
      · rw [if_pos hpq]; exact strLe_refl q
      · rw [if_neg hpq]
        rcases strLe_total p q with h | h
        · exact absurd h hpq
        · exact h
    simp only [List.foldl_cons]
    refine ⟨?_, strLe_trans hpf hle, ?_⟩
    · rcases List.mem_cons.mp hmem with h | h
      · rw [h]
        by_cases hpq : strLe p q
        · rw [if_pos hpq]
          exact List.mem_cons_of_mem _ (List.mem_cons_self q qs)
        · rw [if_neg hpq]
          exact List.mem_cons_self p _
      · exact List.mem_cons_of_mem _ (List.mem_cons_of_mem _ h)
    · intro x hx
      rcases List.mem_cons.mp hx with rfl | hx'
      · exact strLe_trans hqf hle
      · exact hall x hx'

/-- C8.  On every non-empty combined table `get_latest_period` returns the
maximum period value under the lexicographic (code-point, hence ISO-date)
ordering; in particular on periods {2024-01-01, 2024-01-03, 2024-01-02} it
returns 2024-01-03. -/
theorem latest_period_is_max (df : List Row) :
    (df ≠ [] → ∃ m, get_latest_period df = some m
      ∧ m ∈ df.map Row.period ∧ ∀ p ∈ df.map Row.period, strLe p m)
    ∧ get_latest_period threePeriodsDf = some "2024-01-03" := by
  constructor
  · intro hne
    rcases df with _ | ⟨r, t⟩
    · exact absurd rfl hne
    · obtain ⟨hmem, hle, hall⟩ := foldl_strMax_spec (t.map Row.period) r.period
      refine ⟨_, rfl, ?_, ?_⟩
      · simpa using hmem
      · intro x hx
        simp only [List.map_cons, List.mem_cons] at hx
        rcases hx with rfl | hx'
        · exact hle
        · exact hall x hx'
  · decide

/-- C8 witness: the spec's three-period table. -/
theorem latest_period_is_max_witness :
    ∃ m, get_latest_period threePeriodsDf = some m
      ∧ m ∈ threePeriodsDf.map Row.period
      ∧ ∀ p ∈ threePeriodsDf.map Row.period, strLe p m :=
  (latest_period_is_max threePeriodsDf).1 (by decide)

/-! Sortedness of the combined table and order of the history. -/

theorem rowLe_period {a b : Row} (h : rowLe a b) : strLe a.period b.period := by
  rcases (Prod.Lex.le_iff _ _).mp h with h1 | ⟨h1, _⟩
  · exact le_of_lt h1
  · exact le_of_eq h1

theorem uniqueInOrder_pairwise_strLt (l : List String)
    (h : l.Pairwise strLe) : (uniqueInOrder l).Pairwise strLt := by
  induction l with
  | nil => exact List.Pairwise.nil
  | cons a t ih =>
    rcases List.pairwise_cons.mp h with ⟨ha, ht⟩
    refine List.Pairwise.cons ?_ ((ih ht).filter _)
    intro x hx
    rcases List.mem_filter.mp hx with ⟨hxu, hxne⟩
    have hxt : x ∈ t := (mem_uniqueInOrder t x).mp hxu
    refine ⟨ha x hxt, ?_⟩
    intro hax
    rw [hax] at hxne
    simp at hxne

/-- C9.  The combined per-region table is sorted ascending by
(period, fueltype, type_name); consequently a successful history contains
exactly one entry per distinct period of the combined table, in strictly
ascending date order, with no separate sort step. -/
theorem combined_sorted_history_ascending (df : List Row) :
    List.Sorted rowLe (combineRegion df)
    ∧ ∀ hs, historyEntries (combineRegion df) = some hs →
        hs.map HistEntry.date = uniqueInOrder ((combineRegion df).map Row.period)
        ∧ (hs.map HistEntry.date).Pairwise strLt
        ∧ ∀ p, p ∈ hs.map HistEntry.date ↔ p ∈ (combineRegion df).map Row.period := by
  have hsorted : List.Sorted rowLe (combineRegion df) :=
    List.sorted_insertionSort rowLe _
  refine ⟨hsorted, ?_⟩
  intro hs h
  obtain ⟨hdates, _⟩ := historyGo_eq_some _ _ hs h
  have hperiods : ((combineRegion df).map Row.period).Pairwise strLe :=
    hsorted.map Row.period (fun a b hab => rowLe_period hab)
  refine ⟨hdates, ?_, ?_⟩
  · rw [hdates]
    exact uniqueInOrder_pairwise_strLt _ hperiods
  · intro p
    rw [hdates]
    exact mem_uniqueInOrder _ p

/-- C9 witness: on the spec's end-to-end table the history dates are
exactly the distinct periods of the combined table. -/
theorem combined_sorted_history_ascending_witness :
    ([⟨"2024-06-01", 450, gigawatthours 450⟩] : List HistEntry).map
        HistEntry.date =
      uniqueInOrder ((combineRegion specScenarioDf).map Row.period) :=
  ((combined_sorted_history_ascending specScenarioDf).2
    [⟨"2024-06-01", 450, gigawatthours 450⟩] rfl).1

/-- C10.  Both display roundings are round-half-to-even, the convention of
Python 3's `round`: 1500 MWh gives 2 GWh but 2500 gives 2 and 500 gives 0
(where half-up would give 3 and 1), and a percent landing exactly on a
.005 boundary (Solar 9 of Total 800, exactly 1.125 %) rounds to the even
neighbour 1.12, where half-up would give 1.13. -/
theorem display_rounding_half_even :
    gigawatthours 1500 = 2
    ∧ gigawatthours 2500 = 2
    ∧ gigawatthours 500 = 0
    ∧ gigawatthours 2500 ≠ ⌊(2500 : ℚ) / 1000 + 1 / 2⌋
    ∧ gigawatthours 500 ≠ ⌊(500 : ℚ) / 1000 + 1 / 2⌋
    ∧ get_latest_type_values solarVTG boundaryPercent9Df "renewables"
        "Central" = some (9, 28 / 25)
    ∧ round2HalfUp ((9 : ℚ) / 800 * 100) = 113 / 100
    ∧ (28 / 25 : ℚ) ≠ 113 / 100 := by
  refine ⟨by norm_num [gigawatthours, roundHalfEven],
    by norm_num [gigawatthours, roundHalfEven],
    by norm_num [gigawatthours, roundHalfEven],
    by norm_num [gigawatthours, roundHalfEven],
    by norm_num [gigawatthours, roundHalfEven],
    ?_, by norm_num [round2HalfUp], by norm_num⟩
  have ht : totalValue (latestSlice boundaryPercent9Df "Central") =
      some 800 := by decide
  have hv : typeValue solarVTG (latestSlice boundaryPercent9Df "Central")
      "renewables" = 9 := by decide
  simp only [get_latest_type_values, ht, hv]
  norm_num [round2HalfEven, roundHalfEven]

end DailyGrid
